import Mathlib

/-!
Verification of the window-placement engine of the `resizer` repository
(`src/daemon.py`, data model from `src/settings.py`).

The embedding is shallow and executable:
* `Cell` mirrors `settings.Cell` (coordinates plus the mutable `hwnd`
  owner field, `0` meaning unowned).
* The Python objects shared between `SettingsManager.grid` and the
  registry's `_hwnd_to_cels` dict are modelled by identifying a cell with
  its index in the grid list; the daemon state `PMState` carries the grid
  (`cells`), the handle-to-cell dict as an association list
  (`hwndToCell`), the live handle set (`allHwnd`), and the per-tick
  registration map (`hwndToName`).
* Python dict operations (insert-or-update, delete, `setdefault`) are
  given the usual association-list semantics with unique keys.
* Wall-clock times from `time.time()` are modelled as rationals; machine
  floats in `search_nearest_cell` compare square roots of integer squared
  distances, and exact-real square root is strictly monotone, so the
  comparisons are carried out on the squared distances themselves.
-/

namespace Resizer

/-- Grid cell (`settings.Cell`): `id`, `x`, `y` come from configuration;
`hwnd` is the owner window handle, `0` when the cell is unowned. -/
structure Cell where
  id : Int
  x : Int
  y : Int
  hwnd : Nat
deriving DecidableEq

/-- Lookup in a Python dict mapping handles to cell indices
(association list with unique keys). -/
def lookupD : List (Nat × Nat) → Nat → Option Nat
  | [], _ => none
  | (k, v) :: rest, h => if k = h then some v else lookupD rest h

/-- Python dict assignment `d[k] = v`: update in place if the key is
present, append otherwise. -/
def insertD : List (Nat × Nat) → Nat → Nat → List (Nat × Nat)
  | [], h, v => [(h, v)]
  | (k, w) :: rest, h, v =>
      if k = h then (h, v) :: rest else (k, w) :: insertD rest h v

/-- Python dict deletion `del d[k]` guarded by `k in d` (removes the
entry when present, leaves the dict unchanged otherwise). -/
def eraseD : List (Nat × Nat) → Nat → List (Nat × Nat)
  | [], _ => []
  | (k, w) :: rest, h => if k = h then rest else (k, w) :: eraseD rest h

/-- Python dict assignment for the handle-to-process-name map. -/
def insertS : List (Nat × String) → Nat → String → List (Nat × String)
  | [], h, v => [(h, v)]
  | (k, w) :: rest, h, v =>
      if k = h then (h, v) :: rest else (k, w) :: insertS rest h v

/-- `defaultdict(set)` lookup for `_exclude_window_names`: the set of
excluded window titles of a process, empty when the process is absent. -/
def lookupExc : List (String × List String) → String → List String
  | [], _ => []
  | (k, v) :: rest, n => if k = n then v else lookupExc rest n

/-- State of `PlacementManager` (the fields the core algorithm mutates).
`cells` is `SettingsManager.grid` in declared order; a cell is identified
with its index. `hwndToCell` is `_hwnd_to_cels`, `allHwnd` is `all_hwnd`,
`hwndToName` is `_hwnd_to_name`; `lookupNames`/`excludeNames` are the
immutable tracked-process and exclusion configuration. -/
structure PMState where
  cells : List Cell
  hwndToCell : List (Nat × Nat)
  allHwnd : List Nat
  hwndToName : List (Nat × String)
  lookupNames : List String
  excludeNames : List (String × List String)
deriving DecidableEq

/-- Placeholder cell returned by out-of-range reads (never hit by the
daemon, which only passes cells of the configured grid). -/
def defaultCell : Cell := { id := 1, x := 0, y := 0, hwnd := 0 }

/-- The cell object at index `i` of the grid list. -/
def cellAt (cells : List Cell) (i : Nat) : Cell :=
  (cells.get? i).getD defaultCell

/-- Owner handle of the cell at index `i` (`cell.hwnd`). -/
def ownerAt (cells : List Cell) (i : Nat) : Nat :=
  (cellAt cells i).hwnd

/-- In-place mutation `cell.hwnd = h` of the cell at index `i`. -/
def setOwner : List Cell → Nat → Nat → List Cell
  | [], _, _ => []
  | c :: cs, 0, h => { c with hwnd := h } :: cs
  | c :: cs, Nat.succ i, h => c :: setOwner cs i h

/-- `PlacementManager.link_cell`: `cell.hwnd = hwnd` and
`_hwnd_to_cels[hwnd] = cell`. -/
def link_cell (s : PMState) (hwnd ci : Nat) : PMState :=
  { s with cells := setOwner s.cells ci hwnd,
           hwndToCell := insertD s.hwndToCell hwnd ci }

/-- `PlacementManager.unlink_cell`: `cell.hwnd = 0` and removal of the
map entry when present. -/
def unlink_cell (s : PMState) (hwnd ci : Nat) : PMState :=
  { s with cells := setOwner s.cells ci 0,
           hwndToCell := eraseD s.hwndToCell hwnd }

/-- The scan of `PlacementManager.get_cell`: index of the first cell of
the grid whose owner is not in the live handle set (`cell.hwnd not in
self.all_hwnd`), in declared order. -/
def findVacant (live : List Nat) : List Cell → Option Nat
  | [] => none
  | c :: cs =>
      if c.hwnd ∈ live then (findVacant live cs).map (· + 1) else some 0

/-- `PlacementManager.get_cell`: return the existing binding if any;
otherwise scan for a vacated cell, bind it and return it; `none` when
every cell is owned by a still-live window. The state is returned as
well because the scan binds as a side effect. -/
def get_cell (s : PMState) (hwnd : Nat) : PMState × Option Nat :=
  match lookupD s.hwndToCell hwnd with
  | some ci => (s, some ci)
  | none =>
      match findVacant s.allHwnd s.cells with
      | some ci => (link_cell s hwnd ci, some ci)
      | none => (s, none)

/-- Squared Euclidean distance from `(x, y)` to a cell's coordinates.
The source compares `sqrt` of these values; exact-real square root is
strictly monotone on nonnegative arguments, so the source's comparisons
coincide with comparisons of the squared distances. -/
def distSq (x y : Int) (c : Cell) : Int :=
  (x - c.x) ^ 2 + (y - c.y) ^ 2

/-- Loop of `PlacementManager.search_nearest_cell`: running minimum with
a strict comparison, so the first cell attaining the minimum is kept. -/
def nearestLoop (x y : Int) : List Cell → Cell → Int → Cell
  | [], best, _ => best
  | c :: cs, best, bestD =>
      if distSq x y c < bestD then nearestLoop x y cs c (distSq x y c)
      else nearestLoop x y cs best bestD

/-- `PlacementManager.search_nearest_cell`: starts from `grid[0]` (an
uncaught `IndexError` on an empty grid, modelled as `none`) and scans the
whole grid for the nearest cell. -/
def search_nearest_cell (x y : Int) (grid : List Cell) : Option Cell :=
  match grid with
  | [] => none
  | c0 :: _ => some (nearestLoop x y grid c0 (distSq x y c0))

/-- `PlacementManager.move_to_cell`. Faithful to the source ordering:
the early return on `dest_cell.hwnd == hwnd`; the call to `get_cell`
(which may bind as a side effect); the early return on equal
coordinates; clearing of the current cell's owner before `dest_cell.hwnd`
is re-read; and the commented-out `else` branch of the source (a moving
handle without a current cell does nothing when `dest` is occupied). -/
def move_to_cell (s : PMState) (hwnd dest : Nat) : PMState :=
  if ownerAt s.cells dest = hwnd then s
  else
    match get_cell s hwnd with
    | (s1, some curr) =>
        if (cellAt s1.cells curr).x = (cellAt s1.cells dest).x ∧
           (cellAt s1.cells curr).y = (cellAt s1.cells dest).y then s1
        else
          let s2 : PMState := { s1 with cells := setOwner s1.cells curr 0 }
          if ownerAt s2.cells dest = 0 then
            link_cell s2 hwnd dest
          else
            link_cell (link_cell s2 (ownerAt s2.cells dest) curr) hwnd dest
    | (s1, none) =>
        if ownerAt s1.cells dest = 0 then
          link_cell s1 hwnd dest
        else
          s1

/-- State of `MouseTracker`; times are rationals standing for
`time.time()` values. -/
structure MouseTracker where
  is_holding : Bool
  hold_start_time : ℚ
  hold_threshold : ℚ
deriving DecidableEq

/-- `MouseTracker.is_left_mouse_button_hold`, with the instantaneous
button state and the current time passed in. Note the source's early
`return False` on a sub-threshold release, which leaves `is_holding` set
and `hold_start_time` unchanged. -/
def is_left_mouse_button_hold (m : MouseTracker) (t : ℚ) (down : Bool) :
    MouseTracker × Bool :=
  if down then
    if ¬ m.is_holding then
      ({ m with is_holding := true, hold_start_time := t }, false)
    else if m.hold_threshold ≤ t - m.hold_start_time then (m, true)
    else (m, false)
  else
    if m.is_holding then
      if t - m.hold_start_time < m.hold_threshold then (m, false)
      else ({ m with is_holding := false }, false)
    else (m, false)

/-- `PlacementManager._set_pos_max_count`. -/
def set_pos_max_count : Nat := 5

/-- Current retry counter of a handle (`0` for a handle not yet in
`_set_pos_calls`, matching `setdefault(hwnd, 0)`). -/
def counterVal (calls : List (Nat × Nat)) (h : Nat) : Nat :=
  (lookupD calls h).getD 0

/-- `PlacementManager.need_set_pos_call`: `setdefault(hwnd, 0)` then the
comparison with the ceiling; returns the updated dict and the answer. -/
def need_set_pos_call (calls : List (Nat × Nat)) (hwnd : Nat) :
    List (Nat × Nat) × Bool :=
  match lookupD calls hwnd with
  | some v => (calls, decide (v < set_pos_max_count))
  | none => (insertD calls hwnd 0, decide ((0 : Nat) < set_pos_max_count))

/-- `PlacementManager.increase_set_pos_call_count`
(`self._set_pos_calls[hwnd] += 1`; in the daemon it always runs after
`need_set_pos_call`, so the key is present). -/
def increase_set_pos_call_count (calls : List (Nat × Nat)) (hwnd : Nat) :
    List (Nat × Nat) :=
  insertD calls hwnd ((lookupD calls hwnd).getD 0 + 1)

/-- One tick of the gated enforcement call for a single handle
(`processing_detected_windows` lines 343-350): if `need_set_pos_call`
then issue the call and increment; returns whether a call was issued. -/
def enforcementTick (calls : List (Nat × Nat)) (hwnd : Nat) :
    List (Nat × Nat) × Bool :=
  let r := need_set_pos_call calls hwnd
  if r.2 then (increase_set_pos_call_count r.1 hwnd, true) else (r.1, false)

/-- `n` consecutive ticks for one handle, counting issued gated calls. -/
def runTicks : Nat → List (Nat × Nat) → Nat → List (Nat × Nat) × Nat
  | 0, calls, _ => (calls, 0)
  | Nat.succ n, calls, hwnd =>
      let r := enforcementTick calls hwnd
      let rest := runTicks n r.1 hwnd
      (rest.1, (if r.2 then 1 else 0) + rest.2)

/-- `set.add` on the live handle set. -/
def addHwnd (live : List Nat) (h : Nat) : List Nat :=
  if h ∈ live then live else h :: live

/-- `winEnumHandler`, with the platform queries passed in: `visible` is
`IsWindowVisible`, `windowName` is the title, and `procName?` is `none`
when `OpenProcess` fails and otherwise the resolved process image name.
A visible window is always added to `all_hwnd` before any filtering. -/
def winEnumHandler (s : PMState) (hwnd : Nat) (visible : Bool)
    (windowName : String) (procName? : Option String) : PMState :=
  if visible then
    let s1 : PMState := { s with allHwnd := addHwnd s.allHwnd hwnd }
    match procName? with
    | none => s1
    | some procName =>
        if procName ∈ s1.lookupNames ∧
           windowName ∉ lookupExc s1.excludeNames procName then
          { s1 with hwndToName := insertS s1.hwndToName hwnd procName }
        else s1
  else s

/-- `settings.WindowAttributes` (the fields the enforcement pipeline
reads and the two derived correction fields it writes). -/
structure WinAttrs where
  width : Int
  height : Int
  x : Int
  y : Int
  use_coordinates : Bool
  additional_width : Int
  additional_height : Int
deriving DecidableEq

/-- One `SetWindowPos` request: target position, dimensions, and whether
the move flag was `SWP_SHOWWINDOW` (`true`) or `SWP_NOMOVE` (`false`). -/
structure SetPosCall where
  x : Int
  y : Int
  width : Int
  height : Int
  move : Bool
deriving DecidableEq

/-- The gated first call of a tick (lines 343-350): position/size to the
raw target, moving only when `use_coordinates` holds and grid mode is
off. -/
def firstCallsOf (wa : WinAttrs) (needCall : Bool) (usingGrid : Bool) :
    List SetPosCall :=
  if needCall then
    [{ x := wa.x, y := wa.y, width := wa.width, height := wa.height,
       move := wa.use_coordinates && !usingGrid }]
  else []

/-- Update of `additional_width` (lines 366-368): recomputed only when
the measured width differs, clamped at zero. -/
def waAfterWidth (wa : WinAttrs) (rect_width : Int) : WinAttrs :=
  if rect_width = wa.width then wa
  else { wa with additional_width :=
           if wa.width - rect_width > 0 then wa.width - rect_width else 0 }

/-- Update of `additional_height` (lines 369-371). -/
def waAfterHeight (wa : WinAttrs) (rect_height : Int) : WinAttrs :=
  if rect_height = wa.height then wa
  else { wa with additional_height :=
           if wa.height - rect_height > 0 then wa.height - rect_height else 0 }

/-- Target left coordinate of the corrective call: the bound cell's `x`
under grid mode, else the spec's `x` (lines 383-391). -/
def targetLeft (wa : WinAttrs) (cellInfo : Option Cell) : Int :=
  match cellInfo with
  | some cell => cell.x
  | none => wa.x

/-- Target top coordinate of the corrective call. -/
def targetTop (wa : WinAttrs) (cellInfo : Option Cell) : Int :=
  match cellInfo with
  | some cell => cell.y
  | none => wa.y

/-- `is_correct_left` (lines 385, 392): vacuously true without a cell. -/
def correctLeftB (currentLeft : Int) (cellInfo : Option Cell) : Bool :=
  match cellInfo with
  | some cell => currentLeft == cell.x
  | none => true

/-- `is_correct_top` (lines 386, 393). -/
def correctTopB (currentTop : Int) (cellInfo : Option Cell) : Bool :=
  match cellInfo with
  | some cell => currentTop == cell.y
  | none => true

/-- Move flag of the corrective call: `SWP_SHOWWINDOW` only when a grid
cell drives the position (lines 382, 394). -/
def moveFlagOf (cellInfo : Option Cell) : Bool :=
  match cellInfo with
  | some _ => true
  | none => false

/-- Body of `processing_detected_windows` for one handle (lines
343-399), with the platform queries passed in: `needCall` is the gate's
answer, the frame rectangle is the `DwmGetWindowAttribute` extended
frame, `curPos?` is `GetWindowRect`'s top-left (`none` when the window
closed, which `continue`s), and `cell?` is the allocator's answer under
grid mode. Returns the updated attributes and the issued calls. -/
def processWindow (wa : WinAttrs) (needCall : Bool)
    (frameLeft frameTop frameRight frameBottom : Int)
    (curPos? : Option (Int × Int)) (usingGrid : Bool) (cell? : Option Cell) :
    WinAttrs × List SetPosCall :=
  let firstCalls := firstCallsOf wa needCall usingGrid
  let rect_width := frameRight - frameLeft
  let rect_height := frameBottom - frameTop
  let wa2 := waAfterHeight (waAfterWidth wa rect_width) rect_height
  match curPos? with
  | none => (wa2, firstCalls)
  | some (currentLeft, currentTop) =>
      let cellInfo : Option Cell := if usingGrid then cell? else none
      (wa2,
        if rect_width = wa.width ∧ rect_height = wa.height ∧
           correctLeftB currentLeft cellInfo = true ∧
           correctTopB currentTop cellInfo = true then firstCalls
        else firstCalls ++
          [{ x := targetLeft wa cellInfo, y := targetTop wa cellInfo,
             width := wa.width + wa2.additional_width,
             height := wa.height + wa2.additional_height,
             move := moveFlagOf cellInfo }])

/-- Registry and allocator operations of claim C3: `bind`/`unbind` are
`link_cell`/`unlink_cell`, `cellFor` is `get_cell`, `moveTo` is
`move_to_cell`. -/
inductive Op where
  | bind (h ci : Nat)
  | unbind (h ci : Nat)
  | cellFor (h : Nat)
  | moveTo (h ci : Nat)
deriving DecidableEq

/-- Apply one operation to the registry state. -/
def applyOp (s : PMState) : Op → PMState
  | Op.bind h ci => link_cell s h ci
  | Op.unbind h ci => unlink_cell s h ci
  | Op.cellFor h => (get_cell s h).1
  | Op.moveTo h ci => move_to_cell s h ci

/-- Run a sequence of operations from a state. -/
def runOps (s : PMState) (ops : List Op) : PMState :=
  ops.foldl applyOp s

/-- Initial registry state for a configured grid and a live handle set:
empty maps, as built by `PlacementManager.__init__`. -/
def initState (grid : List Cell) (live : List Nat) : PMState :=
  { cells := grid, hwndToCell := [], allHwnd := live,
    hwndToName := [], lookupNames := [], excludeNames := [] }

/-- Operations as the daemon issues them: only `get_cell` and
`move_to_cell`, with nonzero live handle arguments and configured
destination cells. -/
def goodOp (live : List Nat) (nCells : Nat) : Op → Prop
  | Op.bind _ _ => False
  | Op.unbind _ _ => False
  | Op.cellFor h => h ∈ live ∧ h ≠ 0
  | Op.moveTo h ci => h ∈ live ∧ h ≠ 0 ∧ ci < nCells

/-- The binding invariant: every map entry points at an in-range cell
whose owner field is exactly that handle, handles in the map are nonzero
and live, and every owned cell's owner is in the map pointing back at
it. -/
def Inv (s : PMState) : Prop :=
  (∀ h ci, lookupD s.hwndToCell h = some ci →
      ci < s.cells.length ∧ ownerAt s.cells ci = h ∧ h ≠ 0 ∧ h ∈ s.allHwnd)
  ∧ (∀ i, i < s.cells.length → ownerAt s.cells i ≠ 0 →
      lookupD s.hwndToCell (ownerAt s.cells i) = some i)

/-! ### Association-list dictionary lemmas -/

theorem lookupD_insertD (m : List (Nat × Nat)) (k v k' : Nat) :
    lookupD (insertD m k v) k' = if k' = k then some v else lookupD m k' := by
  induction m with
  | nil =>
      by_cases h : k' = k
      · simp [insertD, lookupD, h]
      · simp [insertD, lookupD, h, Ne.symm h]
  | cons kv rest ih =>
      obtain ⟨k0, v0⟩ := kv
      by_cases h0 : k0 = k
      · subst h0
        by_cases h : k' = k0
        · simp [insertD, lookupD, h]
        · simp [insertD, lookupD, h, Ne.symm h]
      · by_cases h : k' = k0
        · subst h
          simp [insertD, lookupD, h0]
        · simp [insertD, lookupD, h0, h, Ne.symm h, ih]

theorem lookupD_insertD_self (m : List (Nat × Nat)) (k v : Nat) :
    lookupD (insertD m k v) k = some v := by
  simp [lookupD_insertD]

theorem lookupD_insertD_ne (m : List (Nat × Nat)) (k v k' : Nat)
    (h : k' ≠ k) : lookupD (insertD m k v) k' = lookupD m k' := by
  simp [lookupD_insertD, h]

/-! ### Cell-array lemmas -/

theorem length_setOwner (cells : List Cell) (i h : Nat) :
    (setOwner cells i h).length = cells.length := by
  induction cells generalizing i with
  | nil => simp [setOwner]
  | cons c cs ih =>
      cases i with
      | zero => simp [setOwner]
      | succ j => simp [setOwner, ih]

theorem cellAt_setOwner_self (cells : List Cell) (i h : Nat)
    (hi : i < cells.length) :
    cellAt (setOwner cells i h) i = { cellAt cells i with hwnd := h } := by
  induction cells generalizing i with
  | nil => simp at hi
  | cons c cs ih =>
      cases i with
      | zero => simp [setOwner, cellAt]
      | succ j =>
          simp only [setOwner, cellAt, List.get?_cons_succ]
          exact ih j (by simpa using hi)

theorem cellAt_setOwner_ne (cells : List Cell) (i h j : Nat)
    (hij : j ≠ i) : cellAt (setOwner cells i h) j = cellAt cells j := by
  induction cells generalizing i j with
  | nil => simp [setOwner]
  | cons c cs ih =>
      cases i with
      | zero =>
          cases j with
          | zero => exact absurd rfl hij
          | succ j' => simp [setOwner, cellAt]
      | succ i' =>
          cases j with
          | zero => simp [setOwner, cellAt]
          | succ j' =>
              simp only [setOwner, cellAt, List.get?_cons_succ]
              exact ih i' j' (fun hc => hij (by simp [hc]))

theorem ownerAt_setOwner_self (cells : List Cell) (i h : Nat)
    (hi : i < cells.length) : ownerAt (setOwner cells i h) i = h := by
  simp [ownerAt, cellAt_setOwner_self cells i h hi]

theorem ownerAt_setOwner_ne (cells : List Cell) (i h j : Nat)
    (hij : j ≠ i) : ownerAt (setOwner cells i h) j = ownerAt cells j := by
  simp [ownerAt, cellAt_setOwner_ne cells i h j hij]

theorem x_setOwner (cells : List Cell) (i h j : Nat) :
    (cellAt (setOwner cells i h) j).x = (cellAt cells j).x := by
  by_cases hij : j = i
  · subst hij
    by_cases hi : j < cells.length
    · simp [cellAt_setOwner_self cells j h hi]
    · have : setOwner cells j h = cells := by
        induction cells generalizing j with
        | nil => simp [setOwner]
        | cons c cs ih =>
            cases j with
            | zero => simp at hi
            | succ j' =>
                simp only [setOwner, List.cons.injEq, true_and]
                exact ih j' (by simp at hi ⊢; omega)
      rw [this]
  · rw [cellAt_setOwner_ne cells i h j hij]

theorem y_setOwner (cells : List Cell) (i h j : Nat) :
    (cellAt (setOwner cells i h) j).y = (cellAt cells j).y := by
  by_cases hij : j = i
  · subst hij
    by_cases hi : j < cells.length
    · simp [cellAt_setOwner_self cells j h hi]
    · have : setOwner cells j h = cells := by
        induction cells generalizing j with
        | nil => simp [setOwner]
        | cons c cs ih =>
            cases j with
            | zero => simp at hi
            | succ j' =>
                simp only [setOwner, List.cons.injEq, true_and]
                exact ih j' (by simp at hi ⊢; omega)
      rw [this]
  · rw [cellAt_setOwner_ne cells i h j hij]

/-! ### Vacancy-scan lemmas -/

theorem findVacant_spec (live : List Nat) (cells : List Cell) (i : Nat)
    (h : findVacant live cells = some i) :
    i < cells.length ∧ ownerAt cells i ∉ live ∧
      ∀ j, j < i → ownerAt cells j ∈ live := by
  induction cells generalizing i with
  | nil => simp [findVacant] at h
  | cons c cs ih =>
      by_cases hc : c.hwnd ∈ live
      · simp only [findVacant, if_pos hc, Option.map_eq_some'] at h
        obtain ⟨i', hi', rfl⟩ := h
        obtain ⟨h1, h2, h3⟩ := ih i' hi'
        refine ⟨by simpa using h1, ?_, ?_⟩
        · simpa [ownerAt, cellAt] using h2
        · intro j hj
          cases j with
          | zero => simpa [ownerAt, cellAt] using hc
          | succ j' =>
              have := h3 j' (by omega)
              simpa [ownerAt, cellAt] using this
      · simp only [findVacant, if_neg hc] at h
        obtain rfl := Option.some.inj h
        refine ⟨by simp, by simpa [ownerAt, cellAt] using hc, ?_⟩
        intro j hj
        omega

theorem findVacant_none (live : List Nat) (cells : List Cell) :
    findVacant live cells = none ↔
      ∀ j, j < cells.length → ownerAt cells j ∈ live := by
  induction cells with
  | nil => simp [findVacant]
  | cons c cs ih =>
      by_cases hc : c.hwnd ∈ live
      · simp only [findVacant, if_pos hc, Option.map_eq_none', ih]
        constructor
        · intro h j hj
          cases j with
          | zero => simpa [ownerAt, cellAt] using hc
          | succ j' =>
              have := h j' (by simpa using hj)
              simpa [ownerAt, cellAt] using this
        · intro h j hj
          have := h (j + 1) (by simpa using hj)
          simpa [ownerAt, cellAt] using this
      · simp only [findVacant, if_neg hc]
        constructor
        · intro h
          simp at h
        · intro h
          have := h 0 (by simp)
          simp [ownerAt, cellAt] at this
          exact absurd this hc

/-! ### `get_cell` characterization -/

theorem get_cell_hit (s : PMState) (h ci : Nat)
    (hm : lookupD s.hwndToCell h = some ci) : get_cell s h = (s, some ci) := by
  simp [get_cell, hm]

theorem get_cell_alloc (s : PMState) (h ci : Nat)
    (hm : lookupD s.hwndToCell h = none)
    (hv : findVacant s.allHwnd s.cells = some ci) :
    get_cell s h = (link_cell s h ci, some ci) := by
  simp [get_cell, hm, hv]

theorem get_cell_exhausted (s : PMState) (h : Nat)
    (hm : lookupD s.hwndToCell h = none)
    (hv : findVacant s.allHwnd s.cells = none) : get_cell s h = (s, none) := by
  simp [get_cell, hm, hv]

theorem get_cell_none_state (s : PMState) (h : Nat)
    (hn : (get_cell s h).2 = none) :
    (get_cell s h).1 = s ∧ lookupD s.hwndToCell h = none ∧
      findVacant s.allHwnd s.cells = none := by
  unfold get_cell at hn ⊢
  cases hl : lookupD s.hwndToCell h with
  | some ci => simp [hl] at hn
  | none =>
      cases hv : findVacant s.allHwnd s.cells with
      | some ci => simp [hl, hv] at hn
      | none => simp [hl, hv]

/-- Everything the later proofs need about a successful `get_cell` call:
the lengths, coordinates, other cells' owners and other handles' map
entries are untouched; the handle is bound to the returned cell. -/
theorem get_cell_some_state (s : PMState) (h : Nat) (s1 : PMState)
    (curr : Nat) (hg : get_cell s h = (s1, some curr)) :
    s1.cells.length = s.cells.length ∧
    (∀ j, (cellAt s1.cells j).x = (cellAt s.cells j).x ∧
          (cellAt s1.cells j).y = (cellAt s.cells j).y) ∧
    (∀ j, j ≠ curr → ownerAt s1.cells j = ownerAt s.cells j) ∧
    lookupD s1.hwndToCell h = some curr ∧
    (∀ h', h' ≠ h → lookupD s1.hwndToCell h' = lookupD s.hwndToCell h') ∧
    s1.allHwnd = s.allHwnd ∧
    (lookupD s.hwndToCell h = some curr → s1 = s) ∧
    (lookupD s.hwndToCell h = none →
       s1 = link_cell s h curr ∧ curr < s.cells.length ∧
       ownerAt s.cells curr ∉ s.allHwnd ∧ ownerAt s1.cells curr = h) := by
  cases hl : lookupD s.hwndToCell h with
  | some ci =>
      have he := get_cell_hit s h ci hl
      rw [hg] at he
      have hs : s1 = s := congrArg Prod.fst he
      have h2 : curr = ci := by
        have := congrArg Prod.snd he
        simpa using this
      rw [← h2] at hl
      subst hs
      exact ⟨rfl, fun j => ⟨rfl, rfl⟩, fun j _ => rfl, hl, fun h' _ => rfl,
        rfl, fun _ => rfl, fun hcn => by simp [hl] at hcn⟩
  | none =>
      cases hv : findVacant s.allHwnd s.cells with
      | none =>
          have he := get_cell_exhausted s h hl hv
          rw [hg] at he
          have h2 := congrArg Prod.snd he
          simp at h2
      | some ci =>
          have he := get_cell_alloc s h ci hl hv
          rw [hg] at he
          have hs : s1 = link_cell s h ci := congrArg Prod.fst he
          have h2 : curr = ci := by
            have := congrArg Prod.snd he
            simpa using this
          rw [← h2] at hv hs
          subst hs
          obtain ⟨hlt, hnl, _⟩ := findVacant_spec s.allHwnd s.cells curr hv
          refine ⟨by simp [link_cell, length_setOwner], ?_, ?_, ?_, ?_, rfl,
            ?_, ?_⟩
          · intro j
            exact ⟨x_setOwner s.cells curr h j, y_setOwner s.cells curr h j⟩
          · intro j hj
            exact ownerAt_setOwner_ne s.cells curr h j hj
          · exact lookupD_insertD_self s.hwndToCell h curr
          · intro h' hh'
            exact lookupD_insertD_ne s.hwndToCell h curr h' hh'
          · intro hc
            simp [hl] at hc
          · intro _
            exact ⟨rfl, hlt, hnl, ownerAt_setOwner_self s.cells curr h hlt⟩

/-! ### `move_to_cell` branch lemmas -/

theorem move_to_cell_already (s : PMState) (h dest : Nat)
    (hd : ownerAt s.cells dest = h) : move_to_cell s h dest = s := by
  simp [move_to_cell, hd]

theorem move_to_cell_same_coords (s : PMState) (h dest : Nat)
    (s1 : PMState) (curr : Nat) (hd : ownerAt s.cells dest ≠ h)
    (hg : get_cell s h = (s1, some curr))
    (hx : (cellAt s1.cells curr).x = (cellAt s1.cells dest).x)
    (hy : (cellAt s1.cells curr).y = (cellAt s1.cells dest).y) :
    move_to_cell s h dest = s1 := by
  simp [move_to_cell, hd, hg, hx, hy]

theorem move_to_cell_to_empty (s : PMState) (h dest : Nat)
    (s1 : PMState) (curr : Nat) (hd : ownerAt s.cells dest ≠ h)
    (hg : get_cell s h = (s1, some curr))
    (hco : ¬((cellAt s1.cells curr).x = (cellAt s1.cells dest).x ∧
             (cellAt s1.cells curr).y = (cellAt s1.cells dest).y))
    (hdo : ownerAt (setOwner s1.cells curr 0) dest = 0) :
    move_to_cell s h dest =
      link_cell { s1 with cells := setOwner s1.cells curr 0 } h dest := by
  rw [move_to_cell]
  rw [if_neg hd, hg]
  simp only [if_neg hco]
  rw [if_pos hdo]

theorem move_to_cell_swap (s : PMState) (h dest : Nat)
    (s1 : PMState) (curr : Nat) (hd : ownerAt s.cells dest ≠ h)
    (hg : get_cell s h = (s1, some curr))
    (hco : ¬((cellAt s1.cells curr).x = (cellAt s1.cells dest).x ∧
             (cellAt s1.cells curr).y = (cellAt s1.cells dest).y))
    (hdo : ownerAt (setOwner s1.cells curr 0) dest ≠ 0) :
    move_to_cell s h dest =
      link_cell
        (link_cell { s1 with cells := setOwner s1.cells curr 0 }
          (ownerAt (setOwner s1.cells curr 0) dest) curr) h dest := by
  rw [move_to_cell]
  rw [if_neg hd, hg]
  simp only [if_neg hco, if_neg hdo]

theorem move_to_cell_none_empty (s : PMState) (h dest : Nat)
    (hd : ownerAt s.cells dest ≠ h)
    (hg : get_cell s h = (s, none))
    (hdo : ownerAt s.cells dest = 0) :
    move_to_cell s h dest = link_cell s h dest := by
  rw [move_to_cell]
  rw [if_neg hd, hg]
  simp only []
  rw [if_pos hdo]

theorem move_to_cell_none_occupied (s : PMState) (h dest : Nat)
    (hd : ownerAt s.cells dest ≠ h)
    (hg : get_cell s h = (s, none))
    (hdo : ownerAt s.cells dest ≠ 0) :
    move_to_cell s h dest = s := by
  rw [move_to_cell]
  rw [if_neg hd, hg]
  simp only [if_neg hdo]

/-! ### Invariant preservation -/

theorem inv_link_fresh (s : PMState) (h i : Nat) (hinv : Inv s)
    (hm : lookupD s.hwndToCell h = none) (hh0 : h ≠ 0) (hhl : h ∈ s.allHwnd)
    (hi : i < s.cells.length) (hio : ownerAt s.cells i = 0) :
    Inv (link_cell s h i) := by
  obtain ⟨hB, hC⟩ := hinv
  constructor
  · intro h' ci' hl'
    simp only [link_cell] at hl' ⊢
    rw [lookupD_insertD] at hl'
    by_cases hh' : h' = h
    · rw [if_pos hh'] at hl'
      obtain rfl : ci' = i := (Option.some.inj hl').symm
      subst hh'
      exact ⟨by rw [length_setOwner]; exact hi,
        ownerAt_setOwner_self s.cells ci' h' hi, hh0, hhl⟩
    · rw [if_neg hh'] at hl'
      obtain ⟨hlen', hown', hne0', hlive'⟩ := hB h' ci' hl'
      refine ⟨by rw [length_setOwner]; exact hlen', ?_, hne0', hlive'⟩
      have hci : ci' ≠ i := by
        intro hcc
        rw [hcc, hio] at hown'
        exact hne0' hown'.symm
      rw [ownerAt_setOwner_ne s.cells i h ci' hci]
      exact hown'
  · intro j hj ho
    simp only [link_cell] at hj ho ⊢
    rw [length_setOwner] at hj
    by_cases hji : j = i
    · subst hji
      rw [ownerAt_setOwner_self s.cells j h hj] at ho ⊢
      exact lookupD_insertD_self s.hwndToCell h j
    · rw [ownerAt_setOwner_ne s.cells i h j hji] at ho ⊢
      have hoh : ownerAt s.cells j ≠ h := by
        intro hcc
        have hlj := hC j hj ho
        rw [hcc, hm] at hlj
        cases hlj
      rw [lookupD_insertD_ne s.hwndToCell h i _ hoh]
      exact hC j hj ho

theorem inv_get_cell (s : PMState) (h : Nat) (hinv : Inv s)
    (hhl : h ∈ s.allHwnd) (hh0 : h ≠ 0) :
    Inv (get_cell s h).1 ∧
      (∀ ci, (get_cell s h).2 = some ci →
        lookupD (get_cell s h).1.hwndToCell h = some ci ∧
        ownerAt (get_cell s h).1.cells ci = h) := by
  cases hl : lookupD s.hwndToCell h with
  | some ci =>
      rw [get_cell_hit s h ci hl]
      refine ⟨hinv, ?_⟩
      intro ci' hci
      simp only [Option.some.injEq] at hci
      subst hci
      exact ⟨hl, (hinv.1 h ci hl).2.1⟩
  | none =>
      cases hv : findVacant s.allHwnd s.cells with
      | some ci =>
          rw [get_cell_alloc s h ci hl hv]
          obtain ⟨hlt, hvac, _⟩ := findVacant_spec s.allHwnd s.cells ci hv
          have hio : ownerAt s.cells ci = 0 := by
            by_contra hne
            have hlc := hinv.2 ci hlt hne
            exact hvac (hinv.1 _ _ hlc).2.2.2
          refine ⟨inv_link_fresh s h ci hinv hl hh0 hhl hlt hio, ?_⟩
          intro ci' hci
          simp only [Option.some.injEq] at hci
          subst hci
          constructor
          · simp only [link_cell]
            exact lookupD_insertD_self s.hwndToCell h ci
          · simp only [link_cell]
            exact ownerAt_setOwner_self s.cells ci h hlt
      | none =>
          rw [get_cell_exhausted s h hl hv]
          exact ⟨hinv, fun ci hci => by cases hci⟩

theorem inv_clear_then_link (s1 : PMState) (h curr dest : Nat)
    (hinv : Inv s1) (hmapc : lookupD s1.hwndToCell h = some curr)
    (hoc : ownerAt s1.cells curr = h) (hdl : dest < s1.cells.length)
    (hcd : curr ≠ dest) (hdo : ownerAt s1.cells dest = 0) :
    Inv (link_cell { s1 with cells := setOwner s1.cells curr 0 } h dest) := by
  obtain ⟨hB, hC⟩ := hinv
  obtain ⟨hclen, _, hh0, hhl⟩ := hB h curr hmapc
  have hlenInner : (setOwner s1.cells curr 0).length = s1.cells.length :=
    length_setOwner s1.cells curr 0
  have hOdest : ownerAt (setOwner (setOwner s1.cells curr 0) dest h) dest = h :=
    ownerAt_setOwner_self _ dest h (by rw [hlenInner]; exact hdl)
  have hOcurr : ownerAt (setOwner (setOwner s1.cells curr 0) dest h) curr = 0 := by
    rw [ownerAt_setOwner_ne _ dest h curr hcd]
    exact ownerAt_setOwner_self s1.cells curr 0 hclen
  have hOother : ∀ j, j ≠ curr → j ≠ dest →
      ownerAt (setOwner (setOwner s1.cells curr 0) dest h) j =
        ownerAt s1.cells j := by
    intro j hjc hjd
    rw [ownerAt_setOwner_ne _ dest h j hjd]
    exact ownerAt_setOwner_ne s1.cells curr 0 j hjc
  constructor
  · intro h' ci' hl'
    simp only [link_cell] at hl' ⊢
    rw [lookupD_insertD] at hl'
    by_cases hh' : h' = h
    · rw [if_pos hh'] at hl'
      obtain rfl : ci' = dest := (Option.some.inj hl').symm
      subst hh'
      exact ⟨by rw [length_setOwner, hlenInner]; exact hdl, hOdest, hh0, hhl⟩
    · rw [if_neg hh'] at hl'
      obtain ⟨hlen', hown', hne0', hlive'⟩ := hB h' ci' hl'
      refine ⟨by rw [length_setOwner, hlenInner]; exact hlen', ?_, hne0', hlive'⟩
      have hcic : ci' ≠ curr := by
        intro hcc
        rw [hcc, hoc] at hown'
        exact hh' hown'.symm
      have hcid : ci' ≠ dest := by
        intro hcc
        rw [hcc, hdo] at hown'
        exact hne0' hown'.symm
      rw [hOother ci' hcic hcid]
      exact hown'
  · intro j hj ho
    simp only [link_cell] at hj ho ⊢
    rw [length_setOwner, hlenInner] at hj
    by_cases hjd : j = dest
    · subst hjd
      rw [hOdest] at ho ⊢
      exact lookupD_insertD_self s1.hwndToCell h j
    · by_cases hjc : j = curr
      · subst hjc
        rw [hOcurr] at ho
        exact absurd rfl ho
      · rw [hOother j hjc hjd] at ho ⊢
        have hoh : ownerAt s1.cells j ≠ h := by
          intro hcc
          have hlj := hC j hj ho
          rw [hcc, hmapc] at hlj
          have : curr = j := Option.some.inj hlj
          exact hjc this.symm
        rw [lookupD_insertD_ne s1.hwndToCell h dest _ hoh]
        exact hC j hj ho

theorem inv_swap (s1 : PMState) (h curr dest : Nat)
    (hinv : Inv s1) (hmapc : lookupD s1.hwndToCell h = some curr)
    (hoc : ownerAt s1.cells curr = h) (hdl : dest < s1.cells.length)
    (hcd : curr ≠ dest) (hdo : ownerAt s1.cells dest ≠ 0)
    (hdh : ownerAt s1.cells dest ≠ h) :
    Inv (link_cell
      (link_cell { s1 with cells := setOwner s1.cells curr 0 }
        (ownerAt s1.cells dest) curr) h dest) := by
  obtain ⟨hB, hC⟩ := hinv
  obtain ⟨hclen, _, hh0, hhl⟩ := hB h curr hmapc
  have hmapd : lookupD s1.hwndToCell (ownerAt s1.cells dest) = some dest :=
    hC dest hdl hdo
  obtain ⟨_, _, _, hdlive⟩ := hB _ dest hmapd
  have hlenInner : (setOwner s1.cells curr 0).length = s1.cells.length :=
    length_setOwner s1.cells curr 0
  have hOdest : ownerAt (setOwner (setOwner (setOwner s1.cells curr 0) curr
      (ownerAt s1.cells dest)) dest h) dest = h :=
    ownerAt_setOwner_self _ dest h
      (by rw [length_setOwner, hlenInner]; exact hdl)
  have hOcurr : ownerAt (setOwner (setOwner (setOwner s1.cells curr 0) curr
      (ownerAt s1.cells dest)) dest h) curr = ownerAt s1.cells dest := by
    rw [ownerAt_setOwner_ne _ dest h curr hcd]
    exact ownerAt_setOwner_self _ curr _ (by rw [hlenInner]; exact hclen)
  have hOother : ∀ j, j ≠ curr → j ≠ dest →
      ownerAt (setOwner (setOwner (setOwner s1.cells curr 0) curr
        (ownerAt s1.cells dest)) dest h) j = ownerAt s1.cells j := by
    intro j hjc hjd
    rw [ownerAt_setOwner_ne _ dest h j hjd,
        ownerAt_setOwner_ne _ curr _ j hjc]
    exact ownerAt_setOwner_ne s1.cells curr 0 j hjc
  constructor
  · intro h' ci' hl'
    simp only [link_cell] at hl' ⊢
    rw [lookupD_insertD] at hl'
    by_cases hh' : h' = h
    · rw [if_pos hh'] at hl'
      obtain rfl : ci' = dest := (Option.some.inj hl').symm
      subst hh'
      exact ⟨by rw [length_setOwner, length_setOwner, hlenInner]; exact hdl,
        hOdest, hh0, hhl⟩
    · rw [if_neg hh', lookupD_insertD] at hl'
      by_cases hh2 : h' = ownerAt s1.cells dest
      · rw [if_pos hh2] at hl'
        obtain rfl : ci' = curr := (Option.some.inj hl').symm
        subst hh2
        exact ⟨by rw [length_setOwner, length_setOwner, hlenInner]; exact hclen,
          hOcurr, hdo, hdlive⟩
      · rw [if_neg hh2] at hl'
        obtain ⟨hlen', hown', hne0', hlive'⟩ := hB h' ci' hl'
        refine ⟨by rw [length_setOwner, length_setOwner, hlenInner]; exact hlen',
          ?_, hne0', hlive'⟩
        have hcic : ci' ≠ curr := by
          intro hcc
          rw [hcc, hoc] at hown'
          exact hh' hown'.symm
        have hcid : ci' ≠ dest := by
          intro hcc
          rw [hcc] at hown'
          exact hh2 hown'.symm
        rw [hOother ci' hcic hcid]
        exact hown'
  · intro j hj ho
    simp only [link_cell] at hj ho ⊢
    rw [length_setOwner, length_setOwner, hlenInner] at hj
    by_cases hjd : j = dest
    · subst hjd
      rw [hOdest] at ho ⊢
      exact lookupD_insertD_self _ h j
    · by_cases hjc : j = curr
      · subst hjc
        rw [hOcurr] at ho ⊢
        rw [lookupD_insertD_ne _ h dest _ hdh]
        exact lookupD_insertD_self s1.hwndToCell (ownerAt s1.cells dest) j
      · rw [hOother j hjc hjd] at ho ⊢
        have hoh : ownerAt s1.cells j ≠ h := by
          intro hcc
          have hlj := hC j hj ho
          rw [hcc, hmapc] at hlj
          exact hjc (Option.some.inj hlj).symm
        have hoh2 : ownerAt s1.cells j ≠ ownerAt s1.cells dest := by
          intro hcc
          have hlj := hC j hj ho
          rw [hcc, hmapd] at hlj
          exact hjd (Option.some.inj hlj).symm
        rw [lookupD_insertD_ne _ h dest _ hoh,
            lookupD_insertD_ne _ (ownerAt s1.cells dest) curr _ hoh2]
        exact hC j hj ho

theorem get_cell_fst_facts (s : PMState) (h : Nat) :
    (get_cell s h).1.cells.length = s.cells.length ∧
    (get_cell s h).1.allHwnd = s.allHwnd := by
  unfold get_cell
  cases hl : lookupD s.hwndToCell h with
  | some ci => simp
  | none =>
      cases hv : findVacant s.allHwnd s.cells with
      | some ci => simp [link_cell, length_setOwner]
      | none => simp

theorem inv_move (s : PMState) (h dest : Nat) (hinv : Inv s)
    (hhl : h ∈ s.allHwnd) (hh0 : h ≠ 0) (hdlen : dest < s.cells.length) :
    Inv (move_to_cell s h dest) ∧
      (move_to_cell s h dest).cells.length = s.cells.length ∧
      (move_to_cell s h dest).allHwnd = s.allHwnd := by
  by_cases hd : ownerAt s.cells dest = h
  · rw [move_to_cell_already s h dest hd]
    exact ⟨hinv, rfl, rfl⟩
  · obtain ⟨hinv1, hsome⟩ := inv_get_cell s h hinv hhl hh0
    cases hq : (get_cell s h).2 with
    | none =>
        obtain ⟨hs1, hlnone, hvnone⟩ := get_cell_none_state s h hq
        have hgc : get_cell s h = (s, none) := by
          rw [Prod.ext_iff]
          exact ⟨hs1, hq⟩
        by_cases hdo : ownerAt s.cells dest = 0
        · rw [move_to_cell_none_empty s h dest hd hgc hdo]
          refine ⟨inv_link_fresh s h dest hinv hlnone hh0 hhl hdlen hdo, ?_, rfl⟩
          simp [link_cell, length_setOwner]
        · rw [move_to_cell_none_occupied s h dest hd hgc hdo]
          exact ⟨hinv, rfl, rfl⟩
    | some curr =>
        have hgc : get_cell s h = ((get_cell s h).1, some curr) := by rw [← hq]
        obtain ⟨hlen1, hcoords1, hown1, hmap1, hmapo1, hlive1, _, _⟩ :=
          get_cell_some_state s h (get_cell s h).1 curr hgc
        obtain ⟨hmapc, hoc⟩ := hsome curr hq
        by_cases hco : (cellAt (get_cell s h).1.cells curr).x =
              (cellAt (get_cell s h).1.cells dest).x ∧
            (cellAt (get_cell s h).1.cells curr).y =
              (cellAt (get_cell s h).1.cells dest).y
        · rw [move_to_cell_same_coords s h dest _ curr hd hgc hco.1 hco.2]
          exact ⟨hinv1, hlen1, hlive1⟩
        · have hcd : curr ≠ dest := fun hcc => hco (by rw [hcc]; exact ⟨rfl, rfl⟩)
          have hdlen1 : dest < (get_cell s h).1.cells.length := by
            rw [hlen1]
            exact hdlen
          have hs2dest :
              ownerAt (setOwner (get_cell s h).1.cells curr 0) dest =
                ownerAt (get_cell s h).1.cells dest :=
            ownerAt_setOwner_ne _ curr 0 dest (Ne.symm hcd)
          have hdest1 :
              ownerAt (get_cell s h).1.cells dest = ownerAt s.cells dest :=
            hown1 dest (Ne.symm hcd)
          by_cases hdo : ownerAt (get_cell s h).1.cells dest = 0
          · rw [move_to_cell_to_empty s h dest _ curr hd hgc hco
              (by rw [hs2dest]; exact hdo)]
            refine ⟨inv_clear_then_link _ h curr dest hinv1 hmapc hoc hdlen1
              hcd hdo, ?_, ?_⟩
            · simp [link_cell, length_setOwner, hlen1]
            · simp [link_cell, hlive1]
          · rw [move_to_cell_swap s h dest _ curr hd hgc hco
              (by rw [hs2dest]; exact hdo)]
            have hdh : ownerAt (get_cell s h).1.cells dest ≠ h := by
              rw [hdest1]
              exact hd
            rw [hs2dest]
            refine ⟨inv_swap _ h curr dest hinv1 hmapc hoc hdlen1 hcd hdo hdh,
              ?_, ?_⟩
            · simp [link_cell, length_setOwner, hlen1]
            · simp [link_cell, hlive1]

theorem inv_applyOp (s : PMState) (op : Op) (hinv : Inv s)
    (hop : goodOp s.allHwnd s.cells.length op) :
    Inv (applyOp s op) ∧ (applyOp s op).cells.length = s.cells.length ∧
      (applyOp s op).allHwnd = s.allHwnd := by
  cases op with
  | bind h ci => exact absurd hop id
  | unbind h ci => exact absurd hop id
  | cellFor h =>
      obtain ⟨hhl, hh0⟩ := hop
      obtain ⟨hl, ha⟩ := get_cell_fst_facts s h
      exact ⟨(inv_get_cell s h hinv hhl hh0).1, hl, ha⟩
  | moveTo h ci =>
      obtain ⟨hhl, hh0, hlen⟩ := hop
      exact inv_move s h ci hinv hhl hh0 hlen

theorem inv_runOps (s : PMState) (ops : List Op) (hinv : Inv s)
    (hops : ∀ op ∈ ops, goodOp s.allHwnd s.cells.length op) :
    Inv (runOps s ops) ∧ (runOps s ops).cells.length = s.cells.length ∧
      (runOps s ops).allHwnd = s.allHwnd := by
  induction ops generalizing s with
  | nil => exact ⟨hinv, rfl, rfl⟩
  | cons op rest ih =>
      have hop := hops op (List.mem_cons_self op rest)
      obtain ⟨hinv', hlen', hlive'⟩ := inv_applyOp s op hinv hop
      have hrest : ∀ o ∈ rest,
          goodOp (applyOp s op).allHwnd (applyOp s op).cells.length o := by
        intro o ho
        rw [hlen', hlive']
        exact hops o (List.mem_cons_of_mem op ho)
      obtain ⟨h1, h2, h3⟩ := ih (applyOp s op) hinv' hrest
      have hrw : runOps s (op :: rest) = runOps (applyOp s op) rest := rfl
      rw [hrw]
      exact ⟨h1, h2.trans hlen', h3.trans hlive'⟩

theorem inv_init (grid : List Cell) (live : List Nat)
    (hz : ∀ c ∈ grid, c.hwnd = 0) : Inv (initState grid live) := by
  constructor
  · intro h ci hl
    cases hl
  · intro i hi ho
    exfalso
    apply ho
    show ownerAt grid i = 0
    unfold ownerAt cellAt
    cases hg : grid.get? i with
    | none => simp [hg, defaultCell]
    | some c =>
        have := hz c (List.get?_mem hg)
        simp [hg, this]

/-! ### Nearest-cell search -/

theorem distSq_nonneg (x y : Int) (c : Cell) : 0 ≤ distSq x y c := by
  unfold distSq
  positivity

theorem nearestLoop_spec (x y : Int) (l : List Cell) (best : Cell) :
    (nearestLoop x y l best (distSq x y best) = best ∧
       ∀ c ∈ l, distSq x y best ≤ distSq x y c)
    ∨ (∃ i cr, l.get? i = some cr ∧
         nearestLoop x y l best (distSq x y best) = cr ∧
         distSq x y cr < distSq x y best ∧
         (∀ j cj, j < i → l.get? j = some cj →
            distSq x y cr < distSq x y cj) ∧
         (∀ c ∈ l, distSq x y cr ≤ distSq x y c)) := by
  induction l generalizing best with
  | nil =>
      left
      exact ⟨rfl, by simp⟩
  | cons c cs ih =>
      by_cases hc : distSq x y c < distSq x y best
      · have hred : nearestLoop x y (c :: cs) best (distSq x y best) =
            nearestLoop x y cs c (distSq x y c) := by
          simp [nearestLoop, hc]
        rcases ih c with ⟨heq, hmin⟩ | ⟨i, cr, hget, heq, hlt, hfirst, hmin⟩
        · right
          refine ⟨0, c, rfl, by rw [hred]; exact heq, hc, ?_, ?_⟩
          · intro j cj hj _
            omega
          · intro d hd
            rcases List.mem_cons.mp hd with rfl | hd'
            · exact le_refl _
            · exact hmin d hd'
        · right
          refine ⟨i + 1, cr, by simpa using hget, by rw [hred]; exact heq,
            lt_trans hlt hc, ?_, ?_⟩
          · intro j cj hj hget'
            cases j with
            | zero =>
                simp at hget'
                subst hget'
                exact hlt
            | succ j' =>
                exact hfirst j' cj (by omega) (by simpa using hget')
          · intro d hd
            rcases List.mem_cons.mp hd with rfl | hd'
            · exact le_of_lt hlt
            · exact hmin d hd'
      · have hred : nearestLoop x y (c :: cs) best (distSq x y best) =
            nearestLoop x y cs best (distSq x y best) := by
          simp [nearestLoop, hc]
        rcases ih best with ⟨heq, hmin⟩ | ⟨i, cr, hget, heq, hlt, hfirst, hmin⟩
        · left
          refine ⟨by rw [hred]; exact heq, ?_⟩
          intro d hd
          rcases List.mem_cons.mp hd with rfl | hd'
          · exact not_lt.mp hc
          · exact hmin d hd'
        · right
          refine ⟨i + 1, cr, by simpa using hget, by rw [hred]; exact heq,
            hlt, ?_, ?_⟩
          · intro j cj hj hget'
            cases j with
            | zero =>
                simp at hget'
                subst hget'
                exact lt_of_lt_of_le hlt (not_lt.mp hc)
            | succ j' =>
                exact hfirst j' cj (by omega) (by simpa using hget')
          · intro d hd
            rcases List.mem_cons.mp hd with rfl | hd'
            · exact le_of_lt (lt_of_lt_of_le hlt (not_lt.mp hc))
            · exact hmin d hd'

/-- C9: `search_nearest_cell` unconditionally reads `grid[0]`, so it hits
the error branch (an uncaught `IndexError`, modelled as `none`) exactly
when no cell is configured; with at least one configured cell it always
produces a cell. -/
theorem c9_nearest_empty (x y : Int) (grid : List Cell) :
    search_nearest_cell x y grid = none ↔ grid = [] := by
  cases grid <;> simp [search_nearest_cell]

/-- C7: for a non-empty grid, `search_nearest_cell` returns a configured
cell whose Euclidean distance to `(x, y)` is minimal among all configured
cells, and every cell declared strictly before it is strictly farther, so
on ties the first-declared minimal cell is returned. -/
theorem c7_nearest_cell (x y : Int) (grid : List Cell) (hne : grid ≠ []) :
    ∃ r i, search_nearest_cell x y grid = some r ∧ grid.get? i = some r ∧
      (∀ c ∈ grid,
        Real.sqrt ((distSq x y r : ℝ)) ≤ Real.sqrt ((distSq x y c : ℝ))) ∧
      (∀ j cj, j < i → grid.get? j = some cj →
        Real.sqrt ((distSq x y r : ℝ)) < Real.sqrt ((distSq x y cj : ℝ))) := by
  cases grid with
  | nil => exact absurd rfl hne
  | cons c0 rest =>
      have hs : search_nearest_cell x y (c0 :: rest) =
          some (nearestLoop x y (c0 :: rest) c0 (distSq x y c0)) := rfl
      rcases nearestLoop_spec x y (c0 :: rest) c0 with
        ⟨heq, hmin⟩ | ⟨i, cr, hget, heq, hlt, hfirst, hmin⟩
      · refine ⟨c0, 0, by rw [hs, heq], rfl, ?_, ?_⟩
        · intro c hc
          exact Real.sqrt_le_sqrt (by exact_mod_cast hmin c hc)
        · intro j cj hj _
          omega
      · refine ⟨cr, i, by rw [hs, heq], hget, ?_, ?_⟩
        · intro c hc
          exact Real.sqrt_le_sqrt (by exact_mod_cast hmin c hc)
        · intro j cj hj hg
          refine Real.sqrt_lt_sqrt (by exact_mod_cast distSq_nonneg x y cr) ?_
          exact_mod_cast hfirst j cj hj hg

/-- Witness for C7 at a concrete input: the grid of the spec's
drag-release scenario, probed from `(520, 10)`. -/
theorem c7_witness :
    ([⟨1, 0, 0, 0⟩, ⟨2, 500, 0, 0⟩] : List Cell) ≠ [] ∧
    ∃ r i, search_nearest_cell 520 10
        [⟨1, 0, 0, 0⟩, ⟨2, 500, 0, 0⟩] = some r ∧
      ([⟨1, 0, 0, 0⟩, ⟨2, 500, 0, 0⟩] : List Cell).get? i = some r ∧
      (∀ c ∈ ([⟨1, 0, 0, 0⟩, ⟨2, 500, 0, 0⟩] : List Cell),
        Real.sqrt ((distSq 520 10 r : ℝ)) ≤ Real.sqrt ((distSq 520 10 c : ℝ))) ∧
      (∀ j cj, j < i →
        ([⟨1, 0, 0, 0⟩, ⟨2, 500, 0, 0⟩] : List Cell).get? j = some cj →
        Real.sqrt ((distSq 520 10 r : ℝ)) < Real.sqrt ((distSq 520 10 cj : ℝ))) :=
  ⟨by decide, c7_nearest_cell 520 10 [⟨1, 0, 0, 0⟩, ⟨2, 500, 0, 0⟩] (by decide)⟩

/-! ### Retry-counter lemmas -/

theorem counterVal_need (calls : List (Nat × Nat)) (h h' : Nat) :
    counterVal (need_set_pos_call calls h).1 h' = counterVal calls h' := by
  cases hl : lookupD calls h with
  | some v => simp [need_set_pos_call, hl, counterVal]
  | none =>
      simp only [need_set_pos_call, hl, counterVal]
      rw [lookupD_insertD]
      by_cases hh : h' = h
      · subst hh
        rw [if_pos rfl, hl]
        rfl
      · rw [if_neg hh]

theorem need_snd (calls : List (Nat × Nat)) (h : Nat) :
    (need_set_pos_call calls h).2 =
      decide (counterVal calls h < set_pos_max_count) := by
  cases hl : lookupD calls h with
  | some v => simp [need_set_pos_call, hl, counterVal]
  | none => simp [need_set_pos_call, hl, counterVal]

theorem counterVal_increase (calls : List (Nat × Nat)) (h h' : Nat) :
    counterVal (increase_set_pos_call_count calls h) h' =
      if h' = h then counterVal calls h' + 1 else counterVal calls h' := by
  unfold increase_set_pos_call_count counterVal
  rw [lookupD_insertD]
  by_cases hh : h' = h
  · subst hh
    rw [if_pos rfl, if_pos rfl]
    rfl
  · rw [if_neg hh, if_neg hh]

theorem enforcementTick_counter (calls : List (Nat × Nat)) (h : Nat) :
    counterVal (enforcementTick calls h).1 h =
      (if counterVal calls h < set_pos_max_count then counterVal calls h + 1
       else counterVal calls h) ∧
    (enforcementTick calls h).2 =
      decide (counterVal calls h < set_pos_max_count) := by
  simp only [enforcementTick]
  by_cases hlt : counterVal calls h < set_pos_max_count
  · rw [need_snd]
    simp [hlt, counterVal_increase, counterVal_need]
  · rw [need_snd]
    simp [hlt, counterVal_need]

theorem runTicks_count (n : Nat) (calls : List (Nat × Nat)) (h : Nat) :
    (runTicks n calls h).2 =
      min n (set_pos_max_count - counterVal calls h) := by
  induction n generalizing calls with
  | zero => simp [runTicks]
  | succ n ih =>
      simp only [runTicks]
      obtain ⟨hcnt, hiss⟩ := enforcementTick_counter calls h
      rw [hiss, ih, hcnt]
      by_cases hlt : counterVal calls h < set_pos_max_count
      · have hb : decide (counterVal calls h < set_pos_max_count) = true := by
          simpa using hlt
        rw [if_pos hb, if_pos hlt]
        omega
      · have hb : ¬(decide (counterVal calls h < set_pos_max_count) = true) := by
          simpa using hlt
        rw [if_neg hb, if_neg hlt]
        omega

/-- C4: `need_set_pos_call` answers true exactly while the handle's
counter is below the ceiling of 5 (inserting the counter at 0 on first
sight); the counter is never decreased (`need_set_pos_call` leaves every
counter unchanged and `increase_set_pos_call_count` adds one to exactly
the given handle's counter); and a window that never reaches its target
size receives exactly `min n 5` gated enforcement calls over `n` ticks —
5 calls across the first 5 ticks and zero thereafter. The live set plays
no role: `PlacementManager.reset` does not clear `_set_pos_calls`. -/
theorem c4_retry_ceiling (n h h' : Nat) (calls : List (Nat × Nat)) :
    (need_set_pos_call calls h).2 = decide (counterVal calls h < 5) ∧
    counterVal (need_set_pos_call calls h).1 h' = counterVal calls h' ∧
    counterVal (increase_set_pos_call_count calls h) h' =
      (if h' = h then counterVal calls h' + 1 else counterVal calls h') ∧
    (enforcementTick calls h).2 = decide (counterVal calls h < 5) ∧
    (runTicks n [] h).2 = min n 5 := by
  refine ⟨need_snd calls h, counterVal_need calls h h',
    counterVal_increase calls h h', (enforcementTick_counter calls h).2, ?_⟩
  rw [runTicks_count]
  rfl

/-! ### Mouse gesture detector (C2) -/

/-- Counterexample to C2: with threshold 1, a press sampled at time 0 and
released at time 0 (a quick click, held for less than the threshold)
leaves `is_holding` set because of the source's early `return False`;
a fresh quick press sampled at time 5 is then immediately reported as
held, although the button was never continuously pressed for the
threshold duration. -/
theorem c2_counterexample :
    is_left_mouse_button_hold ⟨false, 0, 1⟩ 0 true = (⟨true, 0, 1⟩, false) ∧
    is_left_mouse_button_hold ⟨true, 0, 1⟩ 0 false = (⟨true, 0, 1⟩, false) ∧
    is_left_mouse_button_hold ⟨true, 0, 1⟩ 5 true = (⟨true, 0, 1⟩, true) := by
  refine ⟨?_, ?_, ?_⟩ <;> simp [is_left_mouse_button_hold]

/-- C2 (amended): releasing a sub-threshold press reports a simple click
but leaves the holding flag and the original press start time in place,
and a press sample while the flag is set reports held exactly when the
time since that retained start reaches the threshold — so a quick press
after a sub-threshold release can be falsely classified as held. -/
theorem c2_hold_amended (m : MouseTracker) (t : ℚ) :
    (m.is_holding = true → t - m.hold_start_time < m.hold_threshold →
       is_left_mouse_button_hold m t false = (m, false)) ∧
    (m.is_holding = true →
       is_left_mouse_button_hold m t true =
         (m, decide (m.hold_threshold ≤ t - m.hold_start_time))) := by
  constructor
  · intro hh hlt
    simp [is_left_mouse_button_hold, hh, hlt]
  · intro hh
    by_cases hth : m.hold_threshold ≤ t - m.hold_start_time
    · simp [is_left_mouse_button_hold, hh, hth]
    · simp [is_left_mouse_button_hold, hh, hth, not_le.mp hth]

/-- Witness for the amended C2 at a concrete input. -/
theorem c2_witness :
    (MouseTracker.is_holding ⟨true, 0, 1⟩ = true) ∧
    ((0 : ℚ) - MouseTracker.hold_start_time ⟨true, 0, 1⟩ <
      MouseTracker.hold_threshold ⟨true, 0, 1⟩) ∧
    is_left_mouse_button_hold ⟨true, 0, 1⟩ 0 false = (⟨true, 0, 1⟩, false) :=
  ⟨rfl, by norm_num,
    (c2_hold_amended ⟨true, 0, 1⟩ 0).1 rfl (by norm_num)⟩

/-! ### Size enforcement (C5) -/

/-- C5: whenever the measured frame size differs from the target, the
recorded `additional_width`/`additional_height` equal
`max (target - actual) 0` (never negative, clamped to zero when the
actual size exceeds the target), the corrective call issued in that case
uses `target + additional` as its dimensions, and the spec's concrete
scenario (target 800x600, actual frame 780x580, grid off,
`use_coordinates` true) records `additional = (20, 20)` and issues a
corrective call targeting 820x620. -/
theorem c5_size_enforcement (wa : WinAttrs) (needCall : Bool)
    (fl ft fr fb cl ct : Int) (usingGrid : Bool) (cell? : Option Cell) :
    (fr - fl ≠ wa.width →
      (processWindow wa needCall fl ft fr fb (some (cl, ct)) usingGrid
          cell?).1.additional_width = max (wa.width - (fr - fl)) 0 ∧
      0 ≤ (processWindow wa needCall fl ft fr fb (some (cl, ct)) usingGrid
          cell?).1.additional_width) ∧
    (fb - ft ≠ wa.height →
      (processWindow wa needCall fl ft fr fb (some (cl, ct)) usingGrid
          cell?).1.additional_height = max (wa.height - (fb - ft)) 0 ∧
      0 ≤ (processWindow wa needCall fl ft fr fb (some (cl, ct)) usingGrid
          cell?).1.additional_height) ∧
    (fr - fl ≠ wa.width →
      ∃ pre call,
        (processWindow wa needCall fl ft fr fb (some (cl, ct)) usingGrid
          cell?).2 = pre ++ [call] ∧
        call.width = wa.width +
          (processWindow wa needCall fl ft fr fb (some (cl, ct)) usingGrid
            cell?).1.additional_width ∧
        call.height = wa.height +
          (processWindow wa needCall fl ft fr fb (some (cl, ct)) usingGrid
            cell?).1.additional_height) ∧
    (processWindow ⟨800, 600, 100, 100, true, 0, 0⟩ true 100 100 880 680
        (some (100, 100)) false none =
      (⟨800, 600, 100, 100, true, 20, 20⟩,
        [⟨100, 100, 800, 600, true⟩, ⟨100, 100, 820, 620, false⟩])) := by
  refine ⟨?_, ?_, ?_, by decide⟩
  · intro hw
    by_cases hh : fb - ft = wa.height
    · simp [processWindow, waAfterWidth, waAfterHeight, hw, hh]
      omega
    · simp [processWindow, waAfterWidth, waAfterHeight, hw, hh]
      omega
  · intro hh
    by_cases hw : fr - fl = wa.width
    · simp [processWindow, waAfterWidth, waAfterHeight, hw, hh]
      omega
    · simp [processWindow, waAfterWidth, waAfterHeight, hw, hh]
      omega
  · intro hw
    simp only [processWindow]
    split
    · split
      · rename_i hcond
        exact absurd hcond.1 hw
      · exact ⟨_, _, rfl, rfl, rfl⟩
    · split
      · rename_i hcond
        exact absurd hcond.1 hw
      · exact ⟨_, _, rfl, rfl, rfl⟩

/-- Witness for C5 at the scenario's concrete input. -/
theorem c5_witness :
    ((880 : Int) - 100 ≠ (⟨800, 600, 100, 100, true, 0, 0⟩ : WinAttrs).width) ∧
    (processWindow ⟨800, 600, 100, 100, true, 0, 0⟩ true 100 100 880 680
        (some (100, 100)) false none).1.additional_width =
      max ((⟨800, 600, 100, 100, true, 0, 0⟩ : WinAttrs).width - (880 - 100))
        0 ∧
    0 ≤ (processWindow ⟨800, 600, 100, 100, true, 0, 0⟩ true 100 100 880 680
        (some (100, 100)) false none).1.additional_width :=
  ⟨by decide,
    (c5_size_enforcement ⟨800, 600, 100, 100, true, 0, 0⟩ true 100 100 880
      680 100 100 false none).1 (by decide)⟩

/-! ### Vacancy allocation (C6) -/

/-- C6: `get_cell` returns the existing binding unchanged when the handle
is already bound; otherwise it scans the configured cells in declared
order, binds and returns the first cell whose current owner is not in the
live set (a cell whose owner disappeared is reclaimable), and it returns
`none` exactly when every cell is owned by a still-live handle. -/
theorem c6_cell_for (s : PMState) (h : Nat) :
    (∀ ci, lookupD s.hwndToCell h = some ci → get_cell s h = (s, some ci)) ∧
    (lookupD s.hwndToCell h = none →
      (∀ ci, (get_cell s h).2 = some ci →
        ci < s.cells.length ∧ ownerAt s.cells ci ∉ s.allHwnd ∧
        (∀ j, j < ci → ownerAt s.cells j ∈ s.allHwnd) ∧
        (get_cell s h).1 = link_cell s h ci ∧
        lookupD (get_cell s h).1.hwndToCell h = some ci) ∧
      ((get_cell s h).2 = none ↔
        ∀ j, j < s.cells.length → ownerAt s.cells j ∈ s.allHwnd)) := by
  refine ⟨fun ci hl => get_cell_hit s h ci hl, fun hl => ⟨?_, ?_⟩⟩
  · intro ci hci
    cases hv : findVacant s.allHwnd s.cells with
    | none =>
        rw [get_cell_exhausted s h hl hv] at hci
        cases hci
    | some v =>
        have hga := get_cell_alloc s h v hl hv
        rw [hga] at hci
        simp only [Option.some.injEq] at hci
        subst hci
        obtain ⟨hlt, hvac, hfirst⟩ := findVacant_spec s.allHwnd s.cells v hv
        rw [hga]
        exact ⟨hlt, hvac, hfirst, rfl,
          lookupD_insertD_self s.hwndToCell h v⟩
  · cases hv : findVacant s.allHwnd s.cells with
    | none =>
        rw [get_cell_exhausted s h hl hv]
        constructor
        · intro _
          exact (findVacant_none s.allHwnd s.cells).mp hv
        · intro _
          rfl
    | some v =>
        rw [get_cell_alloc s h v hl hv]
        constructor
        · intro hc
          cases hc
        · intro hall
          have hn := (findVacant_none s.allHwnd s.cells).mpr hall
          rw [hv] at hn
          cases hn

/-- Witness for C6 at a concrete input: one cell owned by dead handle 9,
live handle 7 unbound; the scan reclaims the cell and binds it. -/
theorem c6_witness :
    lookupD (initState [⟨1, 0, 0, 9⟩] [7]).hwndToCell 7 = none ∧
    ((0 : Nat) < (initState [⟨1, 0, 0, 9⟩] [7]).cells.length ∧
      ownerAt (initState [⟨1, 0, 0, 9⟩] [7]).cells 0 ∉
        (initState [⟨1, 0, 0, 9⟩] [7]).allHwnd ∧
      (∀ j, j < 0 → ownerAt (initState [⟨1, 0, 0, 9⟩] [7]).cells j ∈
        (initState [⟨1, 0, 0, 9⟩] [7]).allHwnd) ∧
      (get_cell (initState [⟨1, 0, 0, 9⟩] [7]) 7).1 =
        link_cell (initState [⟨1, 0, 0, 9⟩] [7]) 7 0 ∧
      lookupD (get_cell (initState [⟨1, 0, 0, 9⟩] [7]) 7).1.hwndToCell 7 =
        some 0) :=
  ⟨by decide,
    ((c6_cell_for (initState [⟨1, 0, 0, 9⟩] [7]) 7).2 (by decide)).1 0
      (by decide)⟩

/-! ### Enumeration and the live set (C10) -/

theorem mem_addHwnd (live : List Nat) (h : Nat) : h ∈ addHwnd live h := by
  unfold addHwnd
  by_cases hm : h ∈ live
  · rw [if_pos hm]
    exact hm
  · rw [if_neg hm]
    exact List.mem_cons_self h live

/-- C10: a visible window handle is always added to the live set — also
when its process cannot be opened (`procName? = none`), is untracked, or
its title is excluded, in which cases it is not registered for
enforcement; and the vacancy scan of `get_cell` never selects a cell
whose owner is in the live set, so a cell owned by such a window is never
treated as vacated. -/
theorem c10_enum_live_set (s : PMState) (hwnd : Nat) (title : String)
    (procName? : Option String) :
    (hwnd ∈ (winEnumHandler s hwnd true title procName?).allHwnd) ∧
    (procName? = none →
      (winEnumHandler s hwnd true title procName?).hwndToName =
        s.hwndToName) ∧
    (∀ pn, procName? = some pn →
      (pn ∉ s.lookupNames ∨ title ∈ lookupExc s.excludeNames pn) →
      (winEnumHandler s hwnd true title procName?).hwndToName =
        s.hwndToName) ∧
    (∀ s' : PMState, ∀ h' i : Nat, hwnd ∈ s'.allHwnd →
      ownerAt s'.cells i = hwnd → lookupD s'.hwndToCell h' = none →
      (get_cell s' h').2 ≠ some i) := by
  refine ⟨?_, ?_, ?_, ?_⟩
  · cases procName? with
    | none => simpa [winEnumHandler] using mem_addHwnd s.allHwnd hwnd
    | some pn =>
        by_cases hc : pn ∈ s.lookupNames ∧ title ∉ lookupExc s.excludeNames pn
        · simpa [winEnumHandler, hc] using mem_addHwnd s.allHwnd hwnd
        · simpa [winEnumHandler, hc] using mem_addHwnd s.allHwnd hwnd
  · intro hp
    subst hp
    simp [winEnumHandler]
  · intro pn hp hbad
    subst hp
    have hc : ¬(pn ∈ s.lookupNames ∧ title ∉ lookupExc s.excludeNames pn) := by
      rcases hbad with hb | hb
      · exact fun hcc => hb hcc.1
      · exact fun hcc => hcc.2 hb
    simp [winEnumHandler, hc]
  · intro s' h' i hmem howner hl hci
    cases hv : findVacant s'.allHwnd s'.cells with
    | none =>
        rw [get_cell_exhausted s' h' hl hv] at hci
        cases hci
    | some v =>
        rw [get_cell_alloc s' h' v hl hv] at hci
        simp only [Option.some.injEq] at hci
        subst hci
        obtain ⟨_, hvac, _⟩ := findVacant_spec s'.allHwnd s'.cells v hv
        rw [howner] at hvac
        exact hvac hmem

/-- Witness for C10 at a concrete input: a tracked process whose window
title is excluded is added to the live set but not registered, and its
owned cell is not reclaimed by the scan for another live handle. -/
theorem c10_witness :
    (5 : Nat) ∈ (winEnumHandler
        ⟨[⟨1, 0, 0, 5⟩], [], [], [], ["a.exe"], [("a.exe", ["Settings"])]⟩
        5 true "Settings" (some "a.exe")).allHwnd ∧
    (winEnumHandler
        ⟨[⟨1, 0, 0, 5⟩], [], [], [], ["a.exe"], [("a.exe", ["Settings"])]⟩
        5 true "Settings" (some "a.exe")).hwndToName = [] ∧
    (get_cell (⟨[⟨1, 0, 0, 5⟩], [], [5], [], [], []⟩ : PMState) 7).2 ≠
      some 0 :=
  ⟨(c10_enum_live_set
      ⟨[⟨1, 0, 0, 5⟩], [], [], [], ["a.exe"], [("a.exe", ["Settings"])]⟩
      5 "Settings" (some "a.exe")).1,
   (c10_enum_live_set
      ⟨[⟨1, 0, 0, 5⟩], [], [], [], ["a.exe"], [("a.exe", ["Settings"])]⟩
      5 "Settings" (some "a.exe")).2.2.1 "a.exe" rfl (Or.inr (by decide)),
   (c10_enum_live_set
      ⟨[⟨1, 0, 0, 5⟩], [], [], [], ["a.exe"], [("a.exe", ["Settings"])]⟩
      5 "Settings" (some "a.exe")).2.2.2
      ⟨[⟨1, 0, 0, 5⟩], [], [5], [], [], []⟩ 7 0 (by decide) (by decide)
      (by decide)⟩

/-! ### Grid exchange (C1, C8) -/

theorem setOwner_oob (cells : List Cell) (i h : Nat)
    (hi : ¬ i < cells.length) : setOwner cells i h = cells := by
  induction cells generalizing i with
  | nil => simp [setOwner]
  | cons c cs ih =>
      cases i with
      | zero => simp at hi
      | succ j =>
          simp only [setOwner, List.cons.injEq, true_and]
          exact ih j (by simp at hi ⊢; omega)

theorem ownerAt_oob (cells : List Cell) (i : Nat)
    (hi : ¬ i < cells.length) : ownerAt cells i = 0 := by
  unfold ownerAt cellAt
  rw [List.get?_eq_none.mpr (by omega)]
  rfl

theorem ownerAt_setOwner_zero (cells : List Cell) (i : Nat) :
    ownerAt (setOwner cells i 0) i = 0 := by
  by_cases hi : i < cells.length
  · exact ownerAt_setOwner_self cells i 0 hi
  · rw [setOwner_oob cells i 0 hi]
    exact ownerAt_oob cells i hi

/-- Counterexample to C1: in a reachable state where the single
configured cell is owned by live handle 7 and live handle 5 has no cell
(and none is vacated), C1 claims `move_to_cell 5 dest` displaces 7 and
binds 5 to `dest`; the code's takeover branch is commented out
(`daemon.py` lines 260-262), so the call changes nothing: the cell stays
with 7 and handle 5 stays unbound. -/
theorem c1_counterexample :
    move_to_cell (runOps (initState [⟨1, 0, 0, 0⟩] [7, 5]) [Op.cellFor 7])
        5 0 =
      runOps (initState [⟨1, 0, 0, 0⟩] [7, 5]) [Op.cellFor 7] ∧
    ownerAt (move_to_cell (runOps (initState [⟨1, 0, 0, 0⟩] [7, 5])
        [Op.cellFor 7]) 5 0).cells 0 = 7 ∧
    lookupD (move_to_cell (runOps (initState [⟨1, 0, 0, 0⟩] [7, 5])
        [Op.cellFor 7]) 5 0).hwndToCell 5 = none :=
  ⟨by decide, by decide, by decide⟩

/-- C1 (amended): `move_to_cell h dest` returns the state unchanged when
`dest` is already owned by `h`; when `h` has a current cell (existing, or
freshly allocated by `get_cell`'s vacancy scan) with the same coordinates
as `dest` the post-`get_cell` state is returned; when the coordinates
differ and `dest` is unowned, `h` takes `dest` and its previous cell is
released; when `dest` is owned by another handle and `h` has a current
cell, the two swap (the displaced handle takes `h`'s previous cell); but
when `h` has no current cell and `dest` is occupied, nothing happens —
the displaced handle keeps `dest` and `h` remains unbound (the takeover
branch of the claim is commented out in the source). When `h` has no
current cell and `dest` is unowned, `h` is bound to `dest` directly. -/
theorem c1_move_to_cell_amended (s : PMState) (h dest : Nat) :
    (ownerAt s.cells dest = h → move_to_cell s h dest = s) ∧
    (∀ s1 curr, ownerAt s.cells dest ≠ h →
      get_cell s h = (s1, some curr) →
      ((cellAt s1.cells curr).x = (cellAt s1.cells dest).x ∧
       (cellAt s1.cells curr).y = (cellAt s1.cells dest).y →
         move_to_cell s h dest = s1) ∧
      (¬((cellAt s1.cells curr).x = (cellAt s1.cells dest).x ∧
         (cellAt s1.cells curr).y = (cellAt s1.cells dest).y) →
        dest < s.cells.length →
        (ownerAt s1.cells dest = 0 →
          ownerAt (move_to_cell s h dest).cells dest = h ∧
          lookupD (move_to_cell s h dest).hwndToCell h = some dest ∧
          ownerAt (move_to_cell s h dest).cells curr = 0) ∧
        (ownerAt s1.cells dest ≠ 0 → curr < s.cells.length →
          ownerAt (move_to_cell s h dest).cells dest = h ∧
          lookupD (move_to_cell s h dest).hwndToCell h = some dest ∧
          ownerAt (move_to_cell s h dest).cells curr =
            ownerAt s1.cells dest ∧
          lookupD (move_to_cell s h dest).hwndToCell
            (ownerAt s1.cells dest) = some curr))) ∧
    (ownerAt s.cells dest ≠ h → (get_cell s h).2 = none →
      (ownerAt s.cells dest ≠ 0 → move_to_cell s h dest = s) ∧
      (ownerAt s.cells dest = 0 → dest < s.cells.length →
        ownerAt (move_to_cell s h dest).cells dest = h ∧
        lookupD (move_to_cell s h dest).hwndToCell h = some dest)) := by
  refine ⟨fun hd => move_to_cell_already s h dest hd, ?_, ?_⟩
  · intro s1 curr hd hg
    obtain ⟨hlen1, hcoords1, hown1, hmap1, hmapo1, hlive1, hhit, halloc⟩ :=
      get_cell_some_state s h s1 curr hg
    constructor
    · intro hco
      exact move_to_cell_same_coords s h dest s1 curr hd hg hco.1 hco.2
    · intro hco hdl
      have hcd : curr ≠ dest := fun hcc => hco (by rw [hcc]; exact ⟨rfl, rfl⟩)
      have hdl1 : dest < s1.cells.length := by rw [hlen1]; exact hdl
      have hs2dest : ownerAt (setOwner s1.cells curr 0) dest =
          ownerAt s1.cells dest :=
        ownerAt_setOwner_ne s1.cells curr 0 dest (Ne.symm hcd)
      constructor
      · intro hdo
        rw [move_to_cell_to_empty s h dest s1 curr hd hg hco
          (by rw [hs2dest]; exact hdo)]
        refine ⟨?_, ?_, ?_⟩
        · simp only [link_cell]
          exact ownerAt_setOwner_self _ dest h
            (by rw [length_setOwner]; exact hdl1)
        · simp only [link_cell]
          exact lookupD_insertD_self _ h dest
        · simp only [link_cell]
          rw [ownerAt_setOwner_ne _ dest h curr hcd]
          exact ownerAt_setOwner_zero s1.cells curr
      · intro hdo hcl
        rw [move_to_cell_swap s h dest s1 curr hd hg hco
          (by rw [hs2dest]; exact hdo)]
        rw [hs2dest]
        have hcl1 : curr < s1.cells.length := by rw [hlen1]; exact hcl
        have hdh : ownerAt s1.cells dest ≠ h := by
          rw [hown1 dest (Ne.symm hcd)]
          exact hd
        refine ⟨?_, ?_, ?_, ?_⟩
        · simp only [link_cell]
          exact ownerAt_setOwner_self _ dest h
            (by rw [length_setOwner, length_setOwner]; exact hdl1)
        · simp only [link_cell]
          exact lookupD_insertD_self _ h dest
        · simp only [link_cell]
          rw [ownerAt_setOwner_ne _ dest h curr hcd]
          exact ownerAt_setOwner_self _ curr _
            (by rw [length_setOwner]; exact hcl1)
        · simp only [link_cell]
          rw [lookupD_insertD_ne _ h dest _ hdh]
          exact lookupD_insertD_self _ _ curr
  · intro hd hq
    obtain ⟨hs1, hlnone, hvnone⟩ := get_cell_none_state s h hq
    have hgc : get_cell s h = (s, none) := Prod.ext_iff.mpr ⟨hs1, hq⟩
    constructor
    · intro hdo
      exact move_to_cell_none_occupied s h dest hd hgc hdo
    · intro hdo hdl
      rw [move_to_cell_none_empty s h dest hd hgc hdo]
      constructor
      · simp only [link_cell]
        exact ownerAt_setOwner_self s.cells dest h hdl
      · simp only [link_cell]
        exact lookupD_insertD_self s.hwndToCell h dest

/-- Witness for the amended C1 at a concrete input: two bound live
handles swap cells. -/
theorem c1_witness :
    ownerAt (⟨[⟨1, 0, 0, 5⟩, ⟨2, 10, 0, 7⟩], [(5, 0), (7, 1)], [5, 7],
        [], [], []⟩ : PMState).cells 1 ≠ 5 ∧
    get_cell ⟨[⟨1, 0, 0, 5⟩, ⟨2, 10, 0, 7⟩], [(5, 0), (7, 1)], [5, 7],
        [], [], []⟩ 5 =
      (⟨[⟨1, 0, 0, 5⟩, ⟨2, 10, 0, 7⟩], [(5, 0), (7, 1)], [5, 7],
        [], [], []⟩, some 0) ∧
    (ownerAt (move_to_cell ⟨[⟨1, 0, 0, 5⟩, ⟨2, 10, 0, 7⟩],
        [(5, 0), (7, 1)], [5, 7], [], [], []⟩ 5 1).cells 1 = 5 ∧
      lookupD (move_to_cell ⟨[⟨1, 0, 0, 5⟩, ⟨2, 10, 0, 7⟩],
        [(5, 0), (7, 1)], [5, 7], [], [], []⟩ 5 1).hwndToCell 5 = some 1 ∧
      ownerAt (move_to_cell ⟨[⟨1, 0, 0, 5⟩, ⟨2, 10, 0, 7⟩],
        [(5, 0), (7, 1)], [5, 7], [], [], []⟩ 5 1).cells 0 =
        ownerAt (⟨[⟨1, 0, 0, 5⟩, ⟨2, 10, 0, 7⟩], [(5, 0), (7, 1)], [5, 7],
          [], [], []⟩ : PMState).cells 1 ∧
      lookupD (move_to_cell ⟨[⟨1, 0, 0, 5⟩, ⟨2, 10, 0, 7⟩],
        [(5, 0), (7, 1)], [5, 7], [], [], []⟩ 5 1).hwndToCell
        (ownerAt (⟨[⟨1, 0, 0, 5⟩, ⟨2, 10, 0, 7⟩], [(5, 0), (7, 1)], [5, 7],
          [], [], []⟩ : PMState).cells 1) = some 0) :=
  ⟨by decide, by decide,
    (((c1_move_to_cell_amended ⟨[⟨1, 0, 0, 5⟩, ⟨2, 10, 0, 7⟩],
        [(5, 0), (7, 1)], [5, 7], [], [], []⟩ 5 1).2.1
      ⟨[⟨1, 0, 0, 5⟩, ⟨2, 10, 0, 7⟩], [(5, 0), (7, 1)], [5, 7],
        [], [], []⟩ 0 (by decide) (by decide)).2
      (by decide) (by decide)).2 (by decide) (by decide)⟩

/-- C8: `move_to_cell` is idempotent — for a configured destination cell,
running it twice with the same handle and destination yields exactly the
state of running it once (handle-to-cell map and all owner fields). -/
theorem c8_move_idempotent (s : PMState) (h dest : Nat)
    (hdl : dest < s.cells.length) :
    move_to_cell (move_to_cell s h dest) h dest = move_to_cell s h dest := by
  by_cases hd : ownerAt s.cells dest = h
  · rw [move_to_cell_already s h dest hd, move_to_cell_already s h dest hd]
  · cases hq : (get_cell s h).2 with
    | none =>
        obtain ⟨hs1, hlnone, hvnone⟩ := get_cell_none_state s h hq
        have hgc : get_cell s h = (s, none) := Prod.ext_iff.mpr ⟨hs1, hq⟩
        by_cases hdo : ownerAt s.cells dest = 0
        · rw [move_to_cell_none_empty s h dest hd hgc hdo]
          apply move_to_cell_already
          simp only [link_cell]
          exact ownerAt_setOwner_self s.cells dest h hdl
        · rw [move_to_cell_none_occupied s h dest hd hgc hdo,
            move_to_cell_none_occupied s h dest hd hgc hdo]
    | some curr =>
        have hgc : get_cell s h = ((get_cell s h).1, some curr) := by
          rw [← hq]
        obtain ⟨hlen1, hcoords1, hown1, hmap1, hmapo1, hlive1, hhit, halloc⟩ :=
          get_cell_some_state s h _ curr hgc
        by_cases hco : (cellAt (get_cell s h).1.cells curr).x =
              (cellAt (get_cell s h).1.cells dest).x ∧
            (cellAt (get_cell s h).1.cells curr).y =
              (cellAt (get_cell s h).1.cells dest).y
        · rw [move_to_cell_same_coords s h dest _ curr hd hgc hco.1 hco.2]
          by_cases hd1 : ownerAt (get_cell s h).1.cells dest = h
          · exact move_to_cell_already _ h dest hd1
          · have hg2 : get_cell (get_cell s h).1 h =
                ((get_cell s h).1, some curr) :=
              get_cell_hit _ h curr hmap1
            exact move_to_cell_same_coords _ h dest _ curr hd1 hg2 hco.1 hco.2
        · have hcd : curr ≠ dest := fun hcc =>
            hco (by rw [hcc]; exact ⟨rfl, rfl⟩)
          have hdl1 : dest < (get_cell s h).1.cells.length := by
            rw [hlen1]
            exact hdl
          have hs2dest :
              ownerAt (setOwner (get_cell s h).1.cells curr 0) dest =
                ownerAt (get_cell s h).1.cells dest :=
            ownerAt_setOwner_ne _ curr 0 dest (Ne.symm hcd)
          by_cases hdo : ownerAt (get_cell s h).1.cells dest = 0
          · rw [move_to_cell_to_empty s h dest _ curr hd hgc hco
              (by rw [hs2dest]; exact hdo)]
            apply move_to_cell_already
            simp only [link_cell]
            exact ownerAt_setOwner_self _ dest h
              (by rw [length_setOwner]; exact hdl1)
          · rw [move_to_cell_swap s h dest _ curr hd hgc hco
              (by rw [hs2dest]; exact hdo)]
            apply move_to_cell_already
            simp only [link_cell]
            exact ownerAt_setOwner_self _ dest h
              (by rw [length_setOwner, length_setOwner]; exact hdl1)

/-- Witness for C8 at a concrete input. -/
theorem c8_witness :
    (0 : Nat) < (initState [⟨1, 0, 0, 0⟩] []).cells.length ∧
    move_to_cell (move_to_cell (initState [⟨1, 0, 0, 0⟩] []) 3 0) 3 0 =
      move_to_cell (initState [⟨1, 0, 0, 0⟩] []) 3 0 :=
  ⟨by decide, c8_move_idempotent (initState [⟨1, 0, 0, 0⟩] []) 3 0 (by decide)⟩

/-! ### Registry invariants (C3) -/

/-- Counterexample to C3: the claim ranges over sequences of `bind`,
`unbind`, `cell_for` and `move_to_cell`; the sequence
`bind 1 cell0; bind 1 cell1` is such a sequence from the initial state,
and it leaves both configured cells claiming handle 1 — violating "at
most one grid cell claims a given handle as owner". -/
theorem c3_counterexample :
    ownerAt (runOps (initState [⟨1, 0, 0, 0⟩, ⟨2, 10, 0, 0⟩] [])
        [Op.bind 1 0, Op.bind 1 1]).cells 0 = 1 ∧
    ownerAt (runOps (initState [⟨1, 0, 0, 0⟩, ⟨2, 10, 0, 0⟩] [])
        [Op.bind 1 0, Op.bind 1 1]).cells 1 = 1 ∧
    (0 : Nat) ≠ 1 :=
  ⟨by decide, by decide, by decide⟩

/-- C3 (amended): for sequences built only from the operations the
daemon issues — `cell_for` and `move_to_cell`, with nonzero handles of a
fixed live set and configured destination cells — every state reachable
from the initial state (all cells unowned, empty map) satisfies: at most
one cell claims a given handle, at most one handle is bound to each cell,
and the handle-to-cell map and the cells' owner fields agree in both
directions. Raw `bind`/`unbind` sequences, which the claim also allowed,
break the invariant (see the counterexample). -/
theorem c3_invariants_amended (grid : List Cell) (live : List Nat)
    (ops : List Op) (hz : ∀ c ∈ grid, c.hwnd = 0)
    (hops : ∀ op ∈ ops, goodOp live grid.length op) :
    (∀ i j, i < (runOps (initState grid live) ops).cells.length →
       j < (runOps (initState grid live) ops).cells.length →
       ownerAt (runOps (initState grid live) ops).cells i ≠ 0 →
       ownerAt (runOps (initState grid live) ops).cells i =
         ownerAt (runOps (initState grid live) ops).cells j → i = j) ∧
    (∀ h1 h2 ci,
       lookupD (runOps (initState grid live) ops).hwndToCell h1 = some ci →
       lookupD (runOps (initState grid live) ops).hwndToCell h2 = some ci →
       h1 = h2) ∧
    (∀ h ci,
       lookupD (runOps (initState grid live) ops).hwndToCell h = some ci →
       ownerAt (runOps (initState grid live) ops).cells ci = h) ∧
    (∀ i, i < (runOps (initState grid live) ops).cells.length →
       ownerAt (runOps (initState grid live) ops).cells i ≠ 0 →
       lookupD (runOps (initState grid live) ops).hwndToCell
         (ownerAt (runOps (initState grid live) ops).cells i) = some i) := by
  have hinv0 : Inv (initState grid live) := inv_init grid live hz
  obtain ⟨hinv, _, _⟩ := inv_runOps (initState grid live) ops hinv0 hops
  obtain ⟨hB, hC⟩ := hinv
  refine ⟨?_, ?_, ?_, hC⟩
  · intro i j hi hj hne heq
    have hli := hC i hi hne
    have hlj := hC j hj (by rw [← heq]; exact hne)
    rw [← heq] at hlj
    rw [hli] at hlj
    exact Option.some.inj hlj
  · intro h1 h2 ci hl1 hl2
    have e1 := (hB h1 ci hl1).2.1
    have e2 := (hB h2 ci hl2).2.1
    exact e1.symm.trans e2
  · intro h ci hl
    exact (hB h ci hl).2.1

/-- Witness for the amended C3 at a concrete input: one `cell_for`
operation of live handle 5 over a two-cell grid. -/
theorem c3_witness :
    (∀ c ∈ ([⟨1, 0, 0, 0⟩, ⟨2, 10, 0, 0⟩] : List Cell), c.hwnd = 0) ∧
    lookupD (runOps (initState [⟨1, 0, 0, 0⟩, ⟨2, 10, 0, 0⟩] [5, 7])
        [Op.cellFor 5]).hwndToCell 5 = some 0 ∧
    ownerAt (runOps (initState [⟨1, 0, 0, 0⟩, ⟨2, 10, 0, 0⟩] [5, 7])
        [Op.cellFor 5]).cells 0 = 5 :=
  ⟨by decide, by decide,
    (c3_invariants_amended [⟨1, 0, 0, 0⟩, ⟨2, 10, 0, 0⟩] [5, 7]
        [Op.cellFor 5] (by decide)
        (by
          intro op hop
          simp only [List.mem_singleton] at hop
          subst hop
          exact ⟨by decide, by decide⟩)).2.2.1 5 0 (by decide)⟩

end Resizer
